import Mathlib

/-!
# Verification of the Load-Balancer dispatch core

A shallow embedding of `src/loadbalancer.c` / `src/loadbalancer.h`.

Modelling conventions:
* C `int` fields become `Int`; array indices are converted with `Int.toNat`.
* The global `server_t *servers[MAX_SERVERS]` array becomes a
  `List (Option server_t)` of length `MAX_SERVERS`; a `none` slot is a
  `NULL` pointer.
* The heap arrays `client_pollin_fds` / `assigned_clients` (each
  `malloc`ed with `max_connections` cells) become lists of length
  `max_connections.toNat`; an uninitialised cell is modelled as a zeroed
  `pollfd` resp. `none`.
* Mutexes and condition variables are dropped: the embedding is a small-step
  sequential interleaving model, each step being one critical operation of
  the C code (one `assign_client` call, or one iteration of the worker
  `routine`'s ready-fd pass).
* External calls (`poll`, `recv`, `socket`, `inet_pton`, `connect`,
  `pthread_create`) are oracles: their results are explicit parameters.
* The C code computes the load as `(float)num_connections /
  (float)max_connections` and compares with `<`.  For the values this
  program produces (`0 ≤ num_connections ≤ max_connections ≤ 1000`, IEEE
  single precision with correctly rounded division) the float comparison
  coincides with the exact rational comparison, which for positive
  denominators is the cross-multiplied integer comparison `flt_lt` used
  here; specification statements phrase loads as exact rationals (`ℚ`).
-/

/-- `MAX_SERVERS` from loadbalancer.h. -/
def MAX_SERVERS : Nat := 10

/-- `DEFAULT_SERVER_MAX_CONNECTIONS` from loadbalancer.h. -/
def DEFAULT_SERVER_MAX_CONNECTIONS : Int := 1000

/-- `POLLIN` from poll.h (0x001). -/
def POLLIN : Int := 1

/-- `POLLERR` from poll.h (0x008). -/
def POLLERR : Int := 8

/-- `LB_PORT` from loadbalancer.h. -/
def LB_PORT : Int := 1800

/-- `client_t` from loadbalancer.h (the `client_address` field, a
`struct sockaddr_in` captured at accept, plays no role in any claim and is
omitted). -/
structure client_t where
  id : Int
  sockfd : Int
deriving DecidableEq

/-- `struct pollfd` from poll.h. -/
structure pollfd where
  fd : Int
  events : Int
  revents : Int
deriving DecidableEq

/-- `server_status` from loadbalancer.h. -/
inductive server_status where
  | ACTIVE
  | INACTIVE
  | ERROR
deriving DecidableEq

/-- `server_details_t` from loadbalancer.h (mutex dropped; C strings as
character lists). -/
structure server_details_t where
  name : List Char
  address : List Char
  port : Int
  sockfd : Int
  status : server_status
deriving DecidableEq

/-- `connection_details_t` from loadbalancer.h (mutex and condition
variable dropped). -/
structure connection_details_t where
  num_connections : Int
  max_connections : Int
deriving DecidableEq

/-- `server_pollin_t` from loadbalancer.h: the two parallel heap arrays,
each of length `max_connections` (mutex dropped). -/
structure server_pollin_t where
  client_pollin_fds : List pollfd
  assigned_clients : List (Option client_t)
deriving DecidableEq

/-- `server_t` from loadbalancer.h. -/
structure server_t where
  server_details : server_details_t
  server_pollin : server_pollin_t
  connection_details : connection_details_t
deriving DecidableEq

/-- The global `server_t *servers[MAX_SERVERS]` array: `none` is `NULL`. -/
abbrev Pool := List (Option server_t)

/-- Reading `servers[i]`: past-the-end reads never occur in the source
because every loop is bounded by `MAX_SERVERS == length`; out of range we
return `none`. -/
def liveAt (p : Pool) (i : Nat) : Option server_t := (p[i]?).join

/-- `init_server` (loadbalancer.c:29): a fresh record with
`num_connections = 0`, the given capacity and two `malloc`ed arrays of
`max_connections` cells (uninitialised memory modelled as zeroed cells). -/
def init_server (max_connections : Int) : server_t :=
  { server_details := ⟨[], [], 0, 0, .ACTIVE⟩
    server_pollin :=
      ⟨List.replicate max_connections.toNat ⟨0, 0, 0⟩,
       List.replicate max_connections.toNat none⟩
    connection_details := ⟨0, max_connections⟩ }

/-- The exact comparison of two load fractions, each given as
`(num_connections, max_connections)`: for positive denominators
`a.1 / a.2 < b.1 / b.2 ↔ a.1 * b.2 < b.1 * a.2`.  This stands for the C
comparison `temp_load < load` of the two float quotients
(loadbalancer.c:313), exact for this program's value ranges. -/
def flt_lt (a b : Int × Int) : Bool := a.1 * b.2 < b.1 * a.2

/-- The load fraction of a backend as an exact rational, for
specification statements. -/
def loadOf (s : server_t) : ℚ :=
  (s.connection_details.num_connections : ℚ) /
    (s.connection_details.max_connections : ℚ)

/-- One iteration of the selection loop of `assign_client`
(loadbalancer.c:306-317).  The accumulator carries the best load seen so
far as an exact fraction (initially `1 = (1,1)`) and the index of the
server holding it (the C code tracks the pointer `server`; we track the
pool index, `none` standing for the initial `NULL`). -/
def scan_step (p : Pool) (acc : (Int × Int) × Option Nat) (i : Nat) :
    (Int × Int) × Option Nat :=
  match liveAt p i with
  | none => acc
  | some s =>
    let temp_load :=
      (s.connection_details.num_connections, s.connection_details.max_connections)
    if flt_lt temp_load acc.1 then (temp_load, some i) else acc

/-- The full selection loop of `assign_client` (loadbalancer.c:304-317):
`load = 1`, `server = NULL`, then one `scan_step` per pool slot. -/
def scan (p : Pool) : (Int × Int) × Option Nat :=
  (List.range MAX_SERVERS).foldl (scan_step p) ((1, 1), none)

/-- The insertion half of `assign_client` (loadbalancer.c:329-333):
with `k = num_connections`, set `assigned_clients[k] = client`,
`client_pollin_fds[k].fd = client->sockfd`,
`client_pollin_fds[k].events = POLLIN`, then increment
`num_connections`.  The C code writes the `fd` and `events` fields of the
existing array cell, leaving `revents` as it was. -/
def insert_client (s : server_t) (client : client_t) : server_t :=
  let n := s.connection_details.num_connections.toNat
  let old := s.server_pollin.client_pollin_fds.getD n ⟨0, 0, 0⟩
  { s with
    server_pollin :=
      ⟨s.server_pollin.client_pollin_fds.set n
        { old with fd := client.sockfd, events := POLLIN },
       s.server_pollin.assigned_clients.set n (some client)⟩
    connection_details :=
      { s.connection_details with
        num_connections := s.connection_details.num_connections + 1 } }

/-- `assign_client` (loadbalancer.c:302-340).  When the selection loop
ends with `server == NULL` (empty pool, or every live backend at load
`≥ 1`), the C code dereferences the null pointer
(`&server->server_details.lock`, loadbalancer.c:320 resp. c:326): that
crash branch is modelled as `none`.  Otherwise the result is the pool
with the client inserted into the selected backend. -/
def assign_client (p : Pool) (client : client_t) : Option Pool :=
  match (scan p).2 with
  | none => none
  | some j =>
    match liveAt p j with
    | none => none
    | some s => some (p.set j (some (insert_client s client)))

/-- Dispatching a sequence of accepted clients, one `assign_client` call
each, as the accept loop of `main` does (loadbalancer.c:358-380). -/
def dispatchAll (p : Pool) (clients : List client_t) : Option Pool :=
  clients.foldlM assign_client p

/-- A pool whose only live slot is `j` (all other slots `NULL`). -/
def single_pool (j : Nat) (s : server_t) : Pool :=
  (List.replicate MAX_SERVERS (none : Option server_t)).set j (some s)

example : (scan (single_pool 0 (init_server 2))).2 = some 0 := by decide
example :
    (scan (single_pool 3 { init_server 2 with
      connection_details := ⟨2, 2⟩ })).2 = none := by decide

/-! ## The worker routine (loadbalancer.c:169-222)

One outer iteration of `routine` is: wait until `num_connections > 0`,
snapshot it into `n`, `poll` the first `n` entries of
`client_pollin_fds`, then run the ready-fd pass over slots `0..n-1`.
`poll` writes the per-slot result into `fds[i].revents`; we model the
values it wrote as an oracle `revents : Nat → Int`, and the result of
`recv(fds[i].fd, buf, 1023, 0)` as an oracle `recvRet : Nat → Int`. -/

/-- The ready-fd test `fds[i].revents && POLLIN` (loadbalancer.c:197).
Note the source uses the logical `&&`, whose C semantics is
`(revents != 0) && (POLLIN != 0)`, not the bitwise mask
`revents & POLLIN`. -/
def pollin_check (revents : Int) : Bool :=
  decide (revents ≠ 0) && decide (POLLIN ≠ 0)

/-- The body of the ready-fd loop for slot `i` (loadbalancer.c:197-217):
if the ready test fires, `recv` is called; a return of `0` (client
disconnected) decrements `num_connections`; a positive return only logs
(forwarding is a TODO in the source); a negative return does nothing. -/
def routine_body (revents recvRet : Nat → Int) (s : server_t) (i : Nat) :
    server_t :=
  if pollin_check (revents i) then
    if recvRet i = 0 then
      { s with connection_details :=
          { s.connection_details with
            num_connections := s.connection_details.num_connections - 1 } }
    else s
  else s

/-- One full ready-fd pass of `routine` (loadbalancer.c:196-218): the
loop bound is the snapshot `n = num_connections` taken before `poll`. -/
def routine_pass (s : server_t) (revents recvRet : Nat → Int) : server_t :=
  (List.range s.connection_details.num_connections.toNat).foldl
    (routine_body revents recvRet) s

/-! ## The sequential interleaving model

A `Step` is one critical operation on the shared pool: one completed
`assign_client` call of the accept path, or one completed ready-fd pass
of some backend's worker.  The worker step requires
`num_connections > 0` because `routine` blocks on the condition variable
until that holds (loadbalancer.c:178-180). -/

/-- One step of the dispatch core. -/
inductive Step : Pool → Pool → Prop
  | assign {p : Pool} (c : client_t) {p' : Pool} :
      assign_client p c = some p' → Step p p'
  | worker {p : Pool} (i : Nat) (s : server_t) (revents recvRet : Nat → Int) :
      liveAt p i = some s →
      0 < s.connection_details.num_connections →
      Step p (p.set i (some (routine_pass s revents recvRet)))

/-- The parallel-array correspondence at one client slot `k`:
`client_pollin_fds[k].fd == assigned_clients[k]->sockfd` (and the
assigned-client cell is in fact occupied). -/
def parallel_at (s : server_t) (k : Nat) : Bool :=
  match s.server_pollin.assigned_clients[k]?, s.server_pollin.client_pollin_fds[k]? with
  | some (some c), some e => e.fd == c.sockfd
  | _, _ => false

/-- Well-formedness of one live backend record: positive configured
capacity (the source always configures `DEFAULT_SERVER_MAX_CONNECTIONS =
1000`), `0 ≤ num_connections ≤ max_connections`, both heap arrays of
length `max_connections`, and the parallel-array correspondence on every
occupied slot. -/
def WF_server (s : server_t) : Prop :=
  0 < s.connection_details.max_connections ∧
  0 ≤ s.connection_details.num_connections ∧
  s.connection_details.num_connections ≤ s.connection_details.max_connections ∧
  s.server_pollin.client_pollin_fds.length = s.connection_details.max_connections.toNat ∧
  s.server_pollin.assigned_clients.length = s.connection_details.max_connections.toNat ∧
  ∀ k < s.connection_details.num_connections.toNat, parallel_at s k = true

instance (s : server_t) : Decidable (WF_server s) := by
  unfold WF_server; infer_instance

/-- Well-formedness of the pool: every live slot is well-formed. -/
def WF (p : Pool) : Prop := ∀ i s, liveAt p i = some s → WF_server s

/-! ## Bootstrap models (loadbalancer.c:134-294, 343-385) -/

/-- The oracle results of the three external calls one dial makes:
`socket` (file descriptor, `-1` on failure), `inet_pton` (`1` on
success, `0` if the address does not parse, negative on error) and
`connect` (`0` on success, `-1` on failure). -/
structure dial_env where
  socket_ret : Int
  pton_ret : Int
  connect_ret : Int
deriving DecidableEq

/-- `connect_to_server` (loadbalancer.c:134-159).  The `socket` result
is stored into `server_details.sockfd` without being checked; the
function returns `-1` exactly when `inet_pton` does not return a
positive value or `connect` fails.  (A failed `socket` call yields fd
`-1`, on which `connect` always fails with `EBADF`; that OS fact is a
hypothesis of the theorems that need it.) -/
def connect_to_server (e : dial_env) : Int :=
  if e.pton_ret ≤ 0 then -1
  else if e.connect_ret = -1 then -1
  else 0

/-- Whether slot `i` survives `init_servers`' loop body: its dial
succeeded and its worker thread was created. -/
def dial_success (env : Nat → dial_env) (thread_ok : Nat → Bool) (i : Nat) : Bool :=
  decide (connect_to_server (env i) ≠ -1) && thread_ok i

/-- One iteration of the connect loop of `init_servers`
(loadbalancer.c:239-259): skip `NULL` slots; on dial failure or
`pthread_create` failure deallocate the slot (`servers[i] = NULL`,
loadbalancer.c:69); otherwise count it. -/
def init_servers_step (env : Nat → dial_env) (thread_ok : Nat → Bool)
    (acc : Pool × Nat) (i : Nat) : Pool × Nat :=
  match liveAt acc.1 i with
  | none => acc
  | some _ =>
    if connect_to_server (env i) = -1 then (acc.1.set i none, acc.2)
    else if thread_ok i = false then (acc.1.set i none, acc.2)
    else (acc.1, acc.2 + 1)

/-- The connect loop of `init_servers` (loadbalancer.c:236-261),
starting from the pool the roster loader produced; returns the final
pool and `num_connected`. -/
def init_servers_loop (p : Pool) (env : Nat → dial_env)
    (thread_ok : Nat → Bool) : Pool × Nat :=
  (List.range MAX_SERVERS).foldl (init_servers_step env thread_ok) (p, 0)

/-- The number of live slots of the pool (among its `MAX_SERVERS`
slots). -/
def countLive (p : Pool) : Nat :=
  (List.range MAX_SERVERS).countP (fun i => (liveAt p i).isSome)

/-- `init_inbound_socket` (loadbalancer.c:271-294) over the oracle
results of `socket`, `bind` and `listen`: returns the listener fd, or
`-1` on any failure. -/
def init_inbound_socket (socket_ret : Int) (bind_ok listen_ok : Bool) : Int :=
  if socket_ret = -1 then -1
  else if bind_ok = false then -1
  else if listen_ok = false then -1
  else socket_ret

/-- The observable outcome of `main`'s bootstrap: either the process
returns from `main` with the given exit status, or it enters the accept
loop. -/
inductive main_outcome where
  | exited (code : Int)
  | accepting
deriving DecidableEq

/-- The bootstrap control flow of `main` (loadbalancer.c:343-357) over
the results of `init_servers` and `init_inbound_socket`: when
`init_servers() == 0` or the listener fd is `-1`, control jumps to
`cleanup_and_exit`, which is `return 0` (loadbalancer.c:382-384);
otherwise the accept loop is entered. -/
def main_bootstrap (num_connected : Int) (inbound_sock_fd : Int) : main_outcome :=
  if num_connected = 0 then .exited 0
  else if inbound_sock_fd = -1 then .exited 0
  else .accepting

/-- The claim's reading of §6 "aborts with nonzero": the bootstrap
terminates the process with a nonzero exit status. -/
def exits_nonzero (o : main_outcome) : Prop :=
  ∃ code, code ≠ 0 ∧ o = main_outcome.exited code

/-! ## The worker's receive buffer (loadbalancer.c:199-202)

`routine` declares `char buf[1024]`, calls
`recv(fds[i].fd, buf, 1023, 0)` and then stores `buf[count] = '\0'`
before inspecting `count`.  The store is in bounds iff
`0 ≤ count < 1024`. -/

/-- Size of the worker's local receive buffer `buf`. -/
def RECV_BUF_SIZE : Nat := 1024

/-- Whether the null-terminator store `buf[count] = '\0'`
(loadbalancer.c:202) indexes inside `buf`. -/
def buf_store_in_bounds (count : Int) : Prop :=
  0 ≤ count ∧ count < (RECV_BUF_SIZE : Int)

instance (count : Int) : Decidable (buf_store_in_bounds count) := by
  unfold buf_store_in_bounds; infer_instance

/-! ## The roster loader (loadbalancer.c:82-106)

`load_servers_metadata` reads lines with `fgets` (so each element of the
input list is one chunk `fgets` returned) and parses each with
`sscanf(line, "%19s %15s %d", name, address, &port)`, counting the line
whenever `sscanf` does not return `EOF`.  C strings are modelled as
`List Char`. -/

/-- The whitespace characters `sscanf`'s `%s` and `%d` skip. -/
def isSpace (c : Char) : Bool :=
  c = ' ' || c = '\t' || c = '\n' || c = '\r'

/-- Split a line into its maximal non-whitespace tokens (accumulator
holds the current token reversed). -/
def splitWSAux : List Char → List Char → List (List Char)
  | [], acc => if acc.isEmpty then [] else [acc.reverse]
  | c :: cs, acc =>
    if isSpace c then
      if acc.isEmpty then splitWSAux cs []
      else acc.reverse :: splitWSAux cs []
    else splitWSAux cs (c :: acc)

/-- The whitespace-separated tokens of a line. -/
def tokens (line : List Char) : List (List Char) := splitWSAux line []

/-- The `%d` conversion: an optional sign followed by at least one
decimal digit; `none` on a matching failure. -/
def parse_int (tok : List Char) : Option Int :=
  let go : List Char → Option Int := fun cs =>
    let ds := cs.takeWhile Char.isDigit
    if ds.isEmpty then none
    else some ((ds.foldl (fun n c => 10 * n + (c.toNat - 48)) 0 : Nat) : Int)
  match tok with
  | '-' :: cs => (go cs).map (fun v => -v)
  | '+' :: cs => go cs
  | cs => go cs

/-- What one `sscanf(line, "%19s %15s %d", ...)` call did: `eof` when the
line is all whitespace (`sscanf` returns `EOF` and the line is not
counted); `short_read` when fewer than the three conversions succeeded
(the unwritten fields keep their uninitialised contents; the line is
still counted); `full` with the three written values otherwise.  Tokens
are assumed to fit the field widths `%19s` / `%15s`, as every line of
this format does; the widths are still applied with `List.take`. -/
inductive scan_result where
  | eof
  | short_read
  | full (name : List Char) (address : List Char) (port : Int)
deriving DecidableEq

/-- Model of the `sscanf` call of loadbalancer.c:98. -/
def sscanf_line (line : List Char) : scan_result :=
  match tokens line with
  | [] => .eof
  | [_] => .short_read
  | [_, _] => .short_read
  | n :: a :: p :: _ =>
    match parse_int p with
    | some v => .full (n.take 19) (a.take 15) v
    | none => .short_read

/-- The loader loop of `load_servers_metadata` (loadbalancer.c:91-102).
The pool slot written at each iteration is slot `count` (allocated by
`init_server(count, ...)` and then filled by `sscanf`); `count` advances
only when `sscanf` did not return `EOF`.  The loop stops when `count`
reaches `MAX_SERVERS` or the lines run out; remaining lines are never
read. -/
def load_servers_metadata (lines : List (List Char)) (count : Nat)
    (pool : List (Option scan_result)) : Nat × List (Option scan_result) :=
  match lines with
  | [] => (count, pool)
  | line :: rest =>
    if count < MAX_SERVERS then
      let r := sscanf_line line
      let pool' := pool.set count (some r)
      match r with
      | .eof => load_servers_metadata rest count pool'
      | _ => load_servers_metadata rest (count + 1) pool'
    else (count, pool)

example :
    load_servers_metadata ["S 1.2.3.4 42".data] 0
      (List.replicate MAX_SERVERS none) =
      (1, (List.replicate MAX_SERVERS (none : Option scan_result)).set 0
        (some (.full "S".data "1.2.3.4".data 42))) := by decide

/-! ## Correctness of the selection loop -/

/-- The exact rational value of a stored load fraction. -/
def qload (a : Int × Int) : ℚ := (a.1 : ℚ) / (a.2 : ℚ)

theorem loadOf_eq_qload (s : server_t) :
    loadOf s =
      qload (s.connection_details.num_connections,
             s.connection_details.max_connections) := rfl

theorem flt_lt_iff {a b : Int × Int} (ha : 0 < a.2) (hb : 0 < b.2) :
    flt_lt a b = true ↔ qload a < qload b := by
  have ha' : (0 : ℚ) < (a.2 : ℚ) := by exact_mod_cast ha
  have hb' : (0 : ℚ) < (b.2 : ℚ) := by exact_mod_cast hb
  rw [qload, qload, div_lt_div_iff₀ ha' hb']
  simp only [flt_lt, decide_eq_true_eq]
  exact_mod_cast Iff.rfl

/-- Invariant of `assign_client`'s selection loop after the slots in
`seen` have been examined: the accumulator fraction has a positive
denominator; while no server is selected the best load is still the
initial `1` and every live slot seen so far is at load `≥ 1`; once a
server is selected it is a seen live slot, its load is the accumulator
value, it is `< 1`, it is minimal among the seen live slots, and it is
strictly below every seen live slot of smaller index (the strict `<` of
the source keeps the first minimum seen). -/
def ScanInv (p : Pool) (seen : List Nat) (acc : (Int × Int) × Option Nat) : Prop :=
  0 < acc.1.2 ∧
  match acc.2 with
  | none => qload acc.1 = 1 ∧
      ∀ k ∈ seen, ∀ s, liveAt p k = some s → 1 ≤ loadOf s
  | some j =>
      (∃ s, liveAt p j = some s ∧
        acc.1 = (s.connection_details.num_connections,
                 s.connection_details.max_connections)) ∧
      j ∈ seen ∧ qload acc.1 < 1 ∧
      (∀ k ∈ seen, ∀ s, liveAt p k = some s → qload acc.1 ≤ loadOf s) ∧
      (∀ k ∈ seen, ∀ s, liveAt p k = some s → k < j → qload acc.1 < loadOf s)

theorem ScanInv_step (p : Pool)
    (hpos : ∀ k s, liveAt p k = some s → 0 < s.connection_details.max_connections)
    (seen : List Nat) (acc : (Int × Int) × Option Nat) (i : Nat)
    (hmono : ∀ k ∈ seen, k < i)
    (hinv : ScanInv p seen acc) :
    ScanInv p (seen ++ [i]) (scan_step p acc i) := by
  obtain ⟨load, best⟩ := acc
  obtain ⟨hden, hrest⟩ := hinv
  have memcase : ∀ k : Nat, k ∈ seen ++ [i] → k ∈ seen ∨ k = i := by
    intro k hk
    rcases List.mem_append.mp hk with h | h
    · exact Or.inl h
    · exact Or.inr (List.mem_singleton.mp h)
  unfold scan_step
  cases hl : liveAt p i with
  | none =>
    refine ⟨hden, ?_⟩
    cases best with
    | none =>
      obtain ⟨h1, h2⟩ := hrest
      refine ⟨h1, ?_⟩
      intro k hk s hs
      rcases memcase k hk with h | h
      · exact h2 k h s hs
      · rw [h, hl] at hs; cases hs
    | some j =>
      obtain ⟨hex, hj, hlt, hmin, hstrict⟩ := hrest
      refine ⟨hex, List.mem_append_left _ hj, hlt, ?_, ?_⟩
      · intro k hk s hs
        rcases memcase k hk with h | h
        · exact hmin k h s hs
        · rw [h, hl] at hs; cases hs
      · intro k hk s hs hkj
        rcases memcase k hk with h | h
        · exact hstrict k h s hs hkj
        · rw [h, hl] at hs; cases hs
  | some s =>
    have hsden : 0 < s.connection_details.max_connections := hpos i s hl
    set t : Int × Int :=
      (s.connection_details.num_connections,
       s.connection_details.max_connections) with ht
    have ht2 : 0 < t.2 := hsden
    have hts : qload t = loadOf s := (loadOf_eq_qload s).symm
    by_cases hcmp : flt_lt t load = true
    · have hql : qload t < qload load := (flt_lt_iff ht2 hden).mp hcmp
      simp only [hcmp, if_pos]
      have hload_le_one : qload load ≤ 1 := by
        cases best with
        | none => exact le_of_eq hrest.1
        | some j => exact le_of_lt hrest.2.2.1
      have hmin_seen : ∀ k ∈ seen, ∀ u, liveAt p k = some u →
          qload load ≤ loadOf u := by
        cases best with
        | none =>
          intro k hk u hu
          calc qload load ≤ 1 := hload_le_one
            _ ≤ loadOf u := hrest.2 k hk u hu
        | some j => exact hrest.2.2.2.1
      refine ⟨ht2, ⟨s, hl, rfl⟩, List.mem_append_right _ (List.mem_singleton.mpr rfl),
        lt_of_lt_of_le hql hload_le_one, ?_, ?_⟩
      · intro k hk u hu
        rcases memcase k hk with h | h
        · exact le_of_lt (lt_of_lt_of_le hql (hmin_seen k h u hu))
        · rw [h, hl] at hu; cases hu
          rw [hts]
      · intro k hk u hu hki
        rcases memcase k hk with h | h
        · exact lt_of_lt_of_le hql (hmin_seen k h u hu)
        · rw [h] at hki; exact absurd hki (lt_irrefl i)
    · have hnot : ¬ qload t < qload load := by
        rw [← flt_lt_iff ht2 hden]
        simpa using hcmp
      have hge : qload load ≤ qload t := not_lt.mp hnot
      simp only [hcmp]
      refine ⟨hden, ?_⟩
      cases best with
      | none =>
        obtain ⟨h1, h2⟩ := hrest
        refine ⟨h1, ?_⟩
        intro k hk u hu
        rcases memcase k hk with h | h
        · exact h2 k h u hu
        · rw [h, hl] at hu; cases hu
          rw [← hts, ← h1]; exact hge
      | some j =>
        obtain ⟨hex, hj, hlt, hmin, hstrict⟩ := hrest
        refine ⟨hex, List.mem_append_left _ hj, hlt, ?_, ?_⟩
        · intro k hk u hu
          rcases memcase k hk with h | h
          · exact hmin k h u hu
          · rw [h, hl] at hu; cases hu
            rw [← hts]; exact hge
        · intro k hk u hu hkj
          rcases memcase k hk with h | h
          · exact hstrict k h u hu hkj
          · exfalso
            rw [h] at hkj
            exact absurd (hmono j hj) (not_lt.mpr (le_of_lt hkj))

theorem ScanInv_foldl (p : Pool)
    (hpos : ∀ k s, liveAt p k = some s → 0 < s.connection_details.max_connections) :
    ∀ (l seen : List Nat) (acc : (Int × Int) × Option Nat),
      (∀ k ∈ seen, ∀ m ∈ l, k < m) → l.Pairwise (· < ·) →
      ScanInv p seen acc →
      ScanInv p (seen ++ l) (l.foldl (scan_step p) acc)
  | [], seen, acc, _, _, hinv => by simpa using hinv
  | i :: l', seen, acc, horder, hpair, hinv => by
    have hstep : ScanInv p (seen ++ [i]) (scan_step p acc i) :=
      ScanInv_step p hpos seen acc i
        (fun k hk => horder k hk i (List.mem_cons_self i l')) hinv
    have hrec :=
      ScanInv_foldl p hpos l' (seen ++ [i]) (scan_step p acc i)
        (by
          intro k hk m hm
          rcases List.mem_append.mp hk with h | h
          · exact horder k h m (List.mem_cons_of_mem i hm)
          · rw [List.mem_singleton.mp h]
            exact (List.pairwise_cons.mp hpair).1 m hm)
        ((List.pairwise_cons.mp hpair).2)
        hstep
    simpa [List.foldl_cons, List.append_assoc] using hrec

/-- The selection-loop invariant holds of the completed scan. -/
theorem ScanInv_scan (p : Pool)
    (hpos : ∀ k s, liveAt p k = some s → 0 < s.connection_details.max_connections) :
    ScanInv p (List.range MAX_SERVERS) (scan p) := by
  have h0 : ScanInv p [] ((1, 1), (none : Option Nat)) := by
    refine ⟨by norm_num, by norm_num [qload], ?_⟩
    intro k hk; cases hk
  have := ScanInv_foldl p hpos (List.range MAX_SERVERS) [] ((1, 1), none)
    (by intro k hk; cases hk) (List.pairwise_lt_range _) h0
  simpa [scan] using this

theorem liveAt_lt_length {p : Pool} {k : Nat} {s : server_t}
    (h : liveAt p k = some s) : k < p.length := by
  unfold liveAt at h
  exact (List.getElem?_eq_some.mp (Option.join_eq_some.mp h)).1

theorem liveAt_set_self {p : Pool} {i : Nat} (h : i < p.length)
    (x : Option server_t) : liveAt (p.set i x) i = x := by
  unfold liveAt
  rw [List.getElem?_set_self (by simpa using h)]
  rfl

theorem liveAt_set_ne {p : Pool} {i k : Nat} (h : i ≠ k)
    (x : Option server_t) : liveAt (p.set i x) k = liveAt p k := by
  unfold liveAt
  rw [List.getElem?_set_ne h]

/-- If the scan selected no server, every live backend (of a
`MAX_SERVERS`-slot pool) is at load `≥ 1`. -/
theorem scan_none_spec {p : Pool}
    (hpos : ∀ k s, liveAt p k = some s → 0 < s.connection_details.max_connections)
    (hlen : p.length = MAX_SERVERS)
    (h : (scan p).2 = none) :
    ∀ k s, liveAt p k = some s → 1 ≤ loadOf s := by
  have hinv := ScanInv_scan p hpos
  unfold ScanInv at hinv
  rw [h] at hinv
  intro k s hk
  exact hinv.2.2 k (List.mem_range.mpr (hlen ▸ liveAt_lt_length hk)) s hk

/-- If the scan selected slot `j`, that slot is live and its load is
below `1`. -/
theorem scan_some_load {p : Pool}
    (hpos : ∀ k s, liveAt p k = some s → 0 < s.connection_details.max_connections)
    {j : Nat} (h : (scan p).2 = some j) :
    ∃ t, liveAt p j = some t ∧ loadOf t < 1 := by
  have hinv := ScanInv_scan p hpos
  unfold ScanInv at hinv
  rw [h] at hinv
  obtain ⟨_, ⟨t, hlive, hacc⟩, _, hlt, _, _⟩ := hinv
  exact ⟨t, hlive, by rw [loadOf_eq_qload, ← hacc]; exact hlt⟩

/-- If the scan selected slot `j` (of a `MAX_SERVERS`-slot pool), the
backend there is live, its load is below `1`, minimal among all live
backends, and strictly below every live backend of smaller index. -/
theorem scan_some_spec {p : Pool}
    (hpos : ∀ k s, liveAt p k = some s → 0 < s.connection_details.max_connections)
    (hlen : p.length = MAX_SERVERS)
    {j : Nat} (h : (scan p).2 = some j) :
    ∃ t, liveAt p j = some t ∧ loadOf t < 1 ∧
      (∀ k u, liveAt p k = some u → loadOf t ≤ loadOf u) ∧
      (∀ k u, liveAt p k = some u → k < j → loadOf t < loadOf u) := by
  have hinv := ScanInv_scan p hpos
  unfold ScanInv at hinv
  rw [h] at hinv
  obtain ⟨_, ⟨t, hlive, hacc⟩, _, hlt, hmin, hstrict⟩ := hinv
  have hq : qload (scan p).1 = loadOf t := by rw [loadOf_eq_qload, hacc]
  refine ⟨t, hlive, by rw [← hq]; exact hlt, ?_, ?_⟩
  · intro k u hk
    have := hmin k (List.mem_range.mpr (hlen ▸ liveAt_lt_length hk)) u hk
    rwa [hq] at this
  · intro k u hk hkj
    have := hstrict k (List.mem_range.mpr (hlen ▸ liveAt_lt_length hk)) u hk hkj
    rwa [hq] at this

/-! ## Preservation of well-formedness by the two mutating operations -/

theorem WF_hpos {p : Pool} (hwf : WF p) :
    ∀ k s, liveAt p k = some s → 0 < s.connection_details.max_connections :=
  fun k s h => (hwf k s h).1

theorem num_lt_max_of_load {s : server_t}
    (hmax : 0 < s.connection_details.max_connections)
    (h : loadOf s < 1) :
    s.connection_details.num_connections < s.connection_details.max_connections := by
  unfold loadOf at h
  rw [div_lt_one (by exact_mod_cast hmax)] at h
  exact_mod_cast h

theorem WF_insert {s : server_t} (c : client_t) (hwf : WF_server s)
    (hlt : s.connection_details.num_connections < s.connection_details.max_connections) :
    WF_server (insert_client s c) := by
  obtain ⟨h1, h2, h3, h4, h5, h6⟩ := hwf
  have hn : s.connection_details.num_connections.toNat <
      s.connection_details.max_connections.toNat := by omega
  have hfds : s.connection_details.num_connections.toNat <
      s.server_pollin.client_pollin_fds.length := by rw [h4]; exact hn
  have hasg : s.connection_details.num_connections.toNat <
      s.server_pollin.assigned_clients.length := by rw [h5]; exact hn
  have htn : (s.connection_details.num_connections + 1).toNat =
      s.connection_details.num_connections.toNat + 1 := by omega
  refine ⟨h1, by simp [insert_client]; omega, by simp [insert_client]; omega,
    ?_, ?_, ?_⟩
  · simp [insert_client, List.length_set, h4]
  · simp [insert_client, List.length_set, h5]
  · intro k hk
    simp only [insert_client] at hk ⊢
    rw [htn] at hk
    rcases Nat.lt_succ_iff_lt_or_eq.mp hk with hk' | hk'
    · have := h6 k hk'
      unfold parallel_at at this ⊢
      simp only [List.getElem?_set_ne (Nat.ne_of_gt hk')]
      exact this
    · subst hk'
      unfold parallel_at
      simp only [List.getElem?_set_self hfds, List.getElem?_set_self hasg]
      simp

/-- The ready-fd pass of `routine` leaves everything but
`num_connections` unchanged, and decreases `num_connections` by at most
the number of slots visited. -/
theorem routine_foldl_spec (revents recvRet : Nat → Int) :
    ∀ (l : List Nat) (s : server_t),
      (l.foldl (routine_body revents recvRet) s).server_details = s.server_details ∧
      (l.foldl (routine_body revents recvRet) s).server_pollin = s.server_pollin ∧
      (l.foldl (routine_body revents recvRet) s).connection_details.max_connections =
        s.connection_details.max_connections ∧
      s.connection_details.num_connections - l.length ≤
        (l.foldl (routine_body revents recvRet) s).connection_details.num_connections ∧
      (l.foldl (routine_body revents recvRet) s).connection_details.num_connections ≤
        s.connection_details.num_connections
  | [], s => by simp
  | i :: l', s => by
    have hbody :
        (routine_body revents recvRet s i).server_details = s.server_details ∧
        (routine_body revents recvRet s i).server_pollin = s.server_pollin ∧
        (routine_body revents recvRet s i).connection_details.max_connections =
          s.connection_details.max_connections ∧
        s.connection_details.num_connections - 1 ≤
          (routine_body revents recvRet s i).connection_details.num_connections ∧
        (routine_body revents recvRet s i).connection_details.num_connections ≤
          s.connection_details.num_connections := by
      unfold routine_body
      split
      · split
        · refine ⟨rfl, rfl, rfl, ?_, ?_⟩
          · show s.connection_details.num_connections - 1 ≤
              s.connection_details.num_connections - 1
            omega
          · show s.connection_details.num_connections - 1 ≤
              s.connection_details.num_connections
            omega
        · exact ⟨rfl, rfl, rfl, by omega, by omega⟩
      · exact ⟨rfl, rfl, rfl, by omega, by omega⟩
    have hrec := routine_foldl_spec revents recvRet l' (routine_body revents recvRet s i)
    obtain ⟨b1, b2, b3, b4, b5⟩ := hbody
    obtain ⟨r1, r2, r3, r4, r5⟩ := hrec
    refine ⟨by rw [List.foldl_cons, r1, b1], by rw [List.foldl_cons, r2, b2],
      by rw [List.foldl_cons, r3, b3], ?_, ?_⟩
    · rw [List.foldl_cons]
      simp only [List.length_cons]
      omega
    · rw [List.foldl_cons]
      omega

theorem WF_routine_pass {s : server_t} (hwf : WF_server s)
    (revents recvRet : Nat → Int) :
    WF_server (routine_pass s revents recvRet) := by
  obtain ⟨h1, h2, h3, h4, h5, h6⟩ := hwf
  obtain ⟨r1, r2, r3, r4, r5⟩ :=
    routine_foldl_spec revents recvRet
      (List.range s.connection_details.num_connections.toNat) s
  unfold routine_pass
  set s' := (List.range s.connection_details.num_connections.toNat).foldl
    (routine_body revents recvRet) s with hs'
  rw [List.length_range] at r4
  refine ⟨by rw [r3]; exact h1, by omega, by omega, by rw [r2, r3]; exact h4,
    by rw [r2, r3]; exact h5, ?_⟩
  intro k hk
  have hk' : k < s.connection_details.num_connections.toNat := by omega
  have := h6 k hk'
  unfold parallel_at at this ⊢
  rw [r2]
  exact this

/-- Characterisation of a successful `assign_client` call: the scan
selected a live slot `j` and the result is the pool with the client
inserted there. -/
theorem assign_client_eq {p : Pool} {c : client_t} {p' : Pool}
    (h : assign_client p c = some p') :
    ∃ j s, (scan p).2 = some j ∧ liveAt p j = some s ∧
      p' = p.set j (some (insert_client s c)) := by
  unfold assign_client at h
  split at h
  · exact absurd h (by simp)
  · rename_i j hscan
    split at h
    · exact absurd h (by simp)
    · rename_i s hlive
      exact ⟨j, s, hscan, hlive, (Option.some_injective _ h).symm⟩

/-- Both operations of the dispatch core preserve pool
well-formedness. -/
theorem WF_preserved {p p' : Pool} (hwf : WF p) (h : Step p p') : WF p' := by
  cases h with
  | assign c hass =>
    obtain ⟨j, s, hscan, hlive, hp'⟩ := assign_client_eq hass
    subst hp'
    have hj : j < p.length := liveAt_lt_length hlive
    intro i t ht
    by_cases hij : j = i
    · subst hij
      rw [liveAt_set_self hj] at ht
      cases ht
      obtain ⟨t', hlive', hload⟩ := scan_some_load (WF_hpos hwf) hscan
      rw [hlive] at hlive'
      cases hlive'
      exact WF_insert c (hwf j s hlive)
        (num_lt_max_of_load (hwf j s hlive).1 hload)
    · rw [liveAt_set_ne hij] at ht
      exact hwf i t ht
  | worker i s revents recvRet hlive hnum =>
    have hi : i < p.length := liveAt_lt_length hlive
    intro k t ht
    by_cases hik : i = k
    · subst hik
      rw [liveAt_set_self hi] at ht
      cases ht
      exact WF_routine_pass (hwf i s hlive) revents recvRet
    · rw [liveAt_set_ne hik] at ht
      exact hwf k t ht

/-! ## Pools with a single live backend -/

theorem single_pool_live {j k : Nat} {s t : server_t}
    (h : liveAt (single_pool j s) k = some t) : t = s := by
  unfold liveAt at h
  have hmem : some t ∈ single_pool j s :=
    List.getElem?_mem (Option.join_eq_some.mp h)
  unfold single_pool at hmem
  rcases List.mem_or_eq_of_mem_set hmem with hm | hm
  · exact absurd (List.eq_of_mem_replicate hm) (by simp)
  · exact Option.some_injective _ hm

theorem single_pool_length (j : Nat) (s : server_t) :
    (single_pool j s).length = MAX_SERVERS := by
  unfold single_pool
  rw [List.length_set, List.length_replicate]

theorem liveAt_single_self {j : Nat} (hj : j < MAX_SERVERS) (s : server_t) :
    liveAt (single_pool j s) j = some s := by
  unfold single_pool
  exact liveAt_set_self (by simpa using hj) (some s)

theorem liveAt_single_ne {j k : Nat} (h : j ≠ k) (s : server_t) :
    liveAt (single_pool j s) k = none := by
  unfold single_pool
  rw [liveAt_set_ne h]
  unfold liveAt
  rcases lt_or_ge k MAX_SERVERS with hk | hk
  · rw [List.getElem?_replicate_of_lt (by simpa using hk)]; rfl
  · rw [List.getElem?_eq_none (by simpa using hk)]; rfl

theorem WF_single {j : Nat} {s : server_t} (h : WF_server s) :
    WF (single_pool j s) := by
  intro i t ht
  rw [single_pool_live ht]
  exact h

theorem single_pool_hpos {j : Nat} {s : server_t}
    (h : 0 < s.connection_details.max_connections) :
    ∀ k t, liveAt (single_pool j s) k = some t →
      0 < t.connection_details.max_connections := by
  intro k t ht
  rw [single_pool_live ht]
  exact h

/-- On a single-live-slot pool whose backend is below capacity, the scan
selects exactly that slot. -/
theorem scan_single {j : Nat} (hj : j < MAX_SERVERS) {s : server_t}
    (hmax : 0 < s.connection_details.max_connections)
    (hload : loadOf s < 1) :
    (scan (single_pool j s)).2 = some j := by
  cases hscan : (scan (single_pool j s)).2 with
  | none =>
    have := scan_none_spec (single_pool_hpos hmax) (single_pool_length j s)
      hscan j s (liveAt_single_self hj s)
    exact absurd hload (not_lt.mpr this)
  | some j' =>
    obtain ⟨t, hlive, _⟩ := scan_some_load (single_pool_hpos hmax) hscan
    by_cases hjj : j = j'
    · rw [hjj]
    · rw [liveAt_single_ne hjj s] at hlive
      cases hlive

theorem loadOf_lt_one {s : server_t}
    (hmax : 0 < s.connection_details.max_connections)
    (h : s.connection_details.num_connections <
      s.connection_details.max_connections) :
    loadOf s < 1 := by
  unfold loadOf
  rw [div_lt_one (by exact_mod_cast hmax)]
  exact_mod_cast h

theorem insert_client_num (s : server_t) (c : client_t) :
    (insert_client s c).connection_details.num_connections =
      s.connection_details.num_connections + 1 := rfl

theorem insert_client_max (s : server_t) (c : client_t) :
    (insert_client s c).connection_details.max_connections =
      s.connection_details.max_connections := rfl

theorem insert_client_fds (s : server_t) (c : client_t) :
    (insert_client s c).server_pollin.client_pollin_fds =
      s.server_pollin.client_pollin_fds.set
        s.connection_details.num_connections.toNat
        { s.server_pollin.client_pollin_fds.getD
            s.connection_details.num_connections.toNat ⟨0, 0, 0⟩ with
          fd := c.sockfd, events := POLLIN } := rfl

theorem insert_client_assigned (s : server_t) (c : client_t) :
    (insert_client s c).server_pollin.assigned_clients =
      s.server_pollin.assigned_clients.set
        s.connection_details.num_connections.toNat (some c) := rfl

/-- One `assign_client` call on a pool with a single live, below-capacity
backend inserts the client into that backend. -/
theorem assign_single {j : Nat} (hj : j < MAX_SERVERS) {s : server_t}
    (c : client_t)
    (hmax : 0 < s.connection_details.max_connections)
    (hload : loadOf s < 1) :
    assign_client (single_pool j s) c =
      some (single_pool j (insert_client s c)) := by
  unfold assign_client
  rw [scan_single hj hmax hload]
  dsimp only
  rw [liveAt_single_self hj s]
  dsimp only
  unfold single_pool
  rw [List.set_set]

/-- Dispatching a sequence of clients to a pool with a single live
backend that has room for all of them: every `assign_client` call
selects that backend, and the result is the fold of the insertions. -/
theorem dispatch_single :
    ∀ (cs : List client_t) {j : Nat}, j < MAX_SERVERS → ∀ (s : server_t),
      0 < s.connection_details.max_connections →
      s.connection_details.num_connections + cs.length ≤
        s.connection_details.max_connections →
      dispatchAll (single_pool j s) cs =
        some (single_pool j (cs.foldl insert_client s))
  | [], j, _, s, _, _ => by simp [dispatchAll]
  | c :: cs', j, hj, s, hmax, hroom => by
    have hlt : s.connection_details.num_connections <
        s.connection_details.max_connections := by
      have := hroom
      simp only [List.length_cons] at this
      omega
    have hload : loadOf s < 1 := loadOf_lt_one hmax hlt
    have hrec := dispatch_single cs' hj (insert_client s c)
      (by rw [insert_client_max]; exact hmax)
      (by
        rw [insert_client_max, insert_client_num]
        simp only [List.length_cons] at hroom
        omega)
    simp only [dispatchAll, List.foldlM_cons] at hrec ⊢
    rw [assign_single hj c hmax hload]
    simpa using hrec

/-- The fields of a backend after a sequence of insertions with room for
all of them: `num_connections` grows by the number of clients; pre-existing
client slots are untouched; client `i` of the sequence sits at slot
`num_connections + i` of both arrays, its poll entry requesting `POLLIN`
on its socket. -/
theorem foldl_insert_spec :
    ∀ (cs : List client_t) (s : server_t),
      0 ≤ s.connection_details.num_connections →
      s.connection_details.num_connections + cs.length ≤
        s.connection_details.max_connections →
      s.server_pollin.client_pollin_fds.length =
        s.connection_details.max_connections.toNat →
      s.server_pollin.assigned_clients.length =
        s.connection_details.max_connections.toNat →
      (cs.foldl insert_client s).connection_details.num_connections =
        s.connection_details.num_connections + cs.length ∧
      (∀ k < s.connection_details.num_connections.toNat,
        (cs.foldl insert_client s).server_pollin.assigned_clients[k]? =
          s.server_pollin.assigned_clients[k]? ∧
        (cs.foldl insert_client s).server_pollin.client_pollin_fds[k]? =
          s.server_pollin.client_pollin_fds[k]?) ∧
      (∀ i c, cs[i]? = some c →
        (cs.foldl insert_client s).server_pollin.assigned_clients[
            s.connection_details.num_connections.toNat + i]? = some (some c) ∧
        ∃ e, (cs.foldl insert_client s).server_pollin.client_pollin_fds[
            s.connection_details.num_connections.toNat + i]? = some e ∧
          e.fd = c.sockfd ∧ e.events = POLLIN)
  | [], s, _, _, _, _ => by
    refine ⟨by simp, by simp, ?_⟩
    intro i c hc
    simp at hc
  | c :: cs', s, hnum, hroom, hfds, hasg => by
    simp only [List.length_cons] at hroom
    have hlt : s.connection_details.num_connections <
        s.connection_details.max_connections := by omega
    have hn : s.connection_details.num_connections.toNat <
        s.connection_details.max_connections.toNat := by omega
    have hn1 : (s.connection_details.num_connections + 1).toNat =
        s.connection_details.num_connections.toNat + 1 := by omega
    have hrec := foldl_insert_spec cs' (insert_client s c)
      (by rw [insert_client_num]; omega)
      (by rw [insert_client_num, insert_client_max]; omega)
      (by rw [insert_client_fds, insert_client_max, List.length_set]; exact hfds)
      (by rw [insert_client_assigned, insert_client_max, List.length_set]; exact hasg)
    obtain ⟨r1, r2, r3⟩ := hrec
    rw [insert_client_num] at r1 r2 r3
    rw [hn1] at r2 r3
    refine ⟨?_, ?_, ?_⟩
    · rw [List.foldl_cons, r1]
      simp only [List.length_cons]
      omega
    · intro k hk
      have hr := r2 k (by omega)
      rw [List.foldl_cons]
      refine ⟨?_, ?_⟩
      · rw [hr.1, insert_client_assigned,
          List.getElem?_set_ne (by omega : s.connection_details.num_connections.toNat ≠ k)]
      · rw [hr.2, insert_client_fds,
          List.getElem?_set_ne (by omega : s.connection_details.num_connections.toNat ≠ k)]
    · intro i d hd
      rw [List.foldl_cons]
      cases i with
      | zero =>
        simp only [List.getElem?_cons_zero] at hd
        cases hd
        have hr := r2 s.connection_details.num_connections.toNat (by omega)
        refine ⟨?_, ?_⟩
        · rw [Nat.add_zero, hr.1, insert_client_assigned,
            List.getElem?_set_self (by rw [hasg]; exact hn)]
        · refine ⟨{ s.server_pollin.client_pollin_fds.getD
              s.connection_details.num_connections.toNat ⟨0, 0, 0⟩ with
              fd := c.sockfd, events := POLLIN }, ?_, rfl, rfl⟩
          rw [Nat.add_zero, hr.2, insert_client_fds,
            List.getElem?_set_self (by rw [hfds]; exact hn)]
      | succ i' =>
        simp only [List.getElem?_cons_succ] at hd
        have hr := r3 i' d hd
        rw [show s.connection_details.num_connections.toNat + (i' + 1) =
          s.connection_details.num_connections.toNat + 1 + i' by omega]
        exact hr

/-! ## Properties of the roster-loader loop -/

theorem load_cons (line : List Char) (rest : List (List Char)) (count : Nat)
    (pool : List (Option scan_result)) (h : count < MAX_SERVERS) :
    load_servers_metadata (line :: rest) count pool =
      match sscanf_line line with
      | .eof => load_servers_metadata rest count
          (pool.set count (some (sscanf_line line)))
      | _ => load_servers_metadata rest (count + 1)
          (pool.set count (some (sscanf_line line))) := by
  conv_lhs => unfold load_servers_metadata
  rw [if_pos h]

theorem load_cons_stop (line : List Char) (rest : List (List Char)) (count : Nat)
    (pool : List (Option scan_result)) (h : ¬ count < MAX_SERVERS) :
    load_servers_metadata (line :: rest) count pool = (count, pool) := by
  conv_lhs => unfold load_servers_metadata
  rw [if_neg h]

theorem load_stop :
    ∀ (l : List (List Char)) (count : Nat) (pool : List (Option scan_result)),
      MAX_SERVERS ≤ count → load_servers_metadata l count pool = (count, pool)
  | [], _, _, _ => rfl
  | line :: rest, count, pool, h => load_cons_stop line rest count pool (by omega)

theorem load_append :
    ∀ (l1 l2 : List (List Char)) (count : Nat) (pool : List (Option scan_result)),
      load_servers_metadata (l1 ++ l2) count pool =
        load_servers_metadata l2 (load_servers_metadata l1 count pool).1
          (load_servers_metadata l1 count pool).2
  | [], l2, count, pool => rfl
  | line :: l1', l2, count, pool => by
    rw [List.cons_append]
    by_cases h : count < MAX_SERVERS
    · rw [load_cons line (l1' ++ l2) count pool h, load_cons line l1' count pool h]
      cases hr : sscanf_line line with
      | eof => exact load_append l1' l2 count _
      | short_read => exact load_append l1' l2 (count + 1) _
      | full n a p => exact load_append l1' l2 (count + 1) _
    · rw [load_cons_stop line (l1' ++ l2) count pool h,
        load_cons_stop line l1' count pool h]
      exact (load_stop l2 count pool (by omega)).symm

theorem load_le :
    ∀ (l : List (List Char)) (count : Nat) (pool : List (Option scan_result)),
      count ≤ MAX_SERVERS → (load_servers_metadata l count pool).1 ≤ MAX_SERVERS
  | [], count, _, h => h
  | line :: rest, count, pool, h => by
    by_cases hc : count < MAX_SERVERS
    · rw [load_cons line rest count pool hc]
      cases hr : sscanf_line line with
      | eof => exact load_le rest count _ (by omega)
      | short_read => exact load_le rest (count + 1) _ (by omega)
      | full n a p => exact load_le rest (count + 1) _ (by omega)
    · rw [load_cons_stop line rest count pool hc]
      exact h

/-! ## Properties of the connect fan-out loop -/

theorem init_loop_spec (env : Nat → dial_env) (thread_ok : Nat → Bool) (p : Pool) :
    ∀ (l : List Nat) (q : Pool) (cnt : Nat),
      l.Nodup →
      (∀ j ∈ l, liveAt q j = liveAt p j) →
      (l.foldl (init_servers_step env thread_ok) (q, cnt)).1.length = q.length ∧
      (∀ j ∈ l, liveAt (l.foldl (init_servers_step env thread_ok) (q, cnt)).1 j =
        if dial_success env thread_ok j then liveAt p j else none) ∧
      (∀ j, j ∉ l →
        liveAt (l.foldl (init_servers_step env thread_ok) (q, cnt)).1 j = liveAt q j) ∧
      (l.foldl (init_servers_step env thread_ok) (q, cnt)).2 =
        cnt + l.countP (fun j => (liveAt p j).isSome && dial_success env thread_ok j)
  | [], q, cnt, _, _ => ⟨rfl, by simp, by simp, by simp⟩
  | i :: l', q, cnt, hnd, hsame => by
    have hnd' : l'.Nodup := (List.nodup_cons.mp hnd).2
    have hni : i ∉ l' := (List.nodup_cons.mp hnd).1
    have hpi : liveAt q i = liveAt p i := hsame i (List.mem_cons_self i l')
    rw [List.foldl_cons]
    cases hq : liveAt q i with
    | none =>
      have hstep : init_servers_step env thread_ok (q, cnt) i = (q, cnt) := by
        unfold init_servers_step
        rw [hq]
      rw [hstep]
      obtain ⟨r1, r2, r3, r4⟩ := init_loop_spec env thread_ok p l' q cnt hnd'
        (fun j hj => hsame j (List.mem_cons_of_mem i hj))
      refine ⟨r1, ?_, ?_, ?_⟩
      · intro j hj
        rcases List.mem_cons.mp hj with hj' | hj'
        · subst hj'
          rw [r3 j hni, hq, ← hpi, hq]
          split <;> rfl
        · exact r2 j hj'
      · intro j hj
        exact r3 j (fun hmem => hj (List.mem_cons_of_mem i hmem))
      · rw [r4, List.countP_cons]
        have hfalse : ((liveAt p i).isSome && dial_success env thread_ok i) = false := by
          rw [← hpi, hq]
          rfl
        rw [hfalse]
        simp
    | some s =>
      have hlen : i < q.length := liveAt_lt_length hq
      by_cases hfail : dial_success env thread_ok i = false
      · have hstep : init_servers_step env thread_ok (q, cnt) i = (q.set i none, cnt) := by
          unfold init_servers_step
          rw [hq]
          dsimp only
          by_cases hc2 : connect_to_server (env i) = -1
          · rw [if_pos hc2]
          · rw [if_neg hc2]
            have ht : thread_ok i = false := by
              unfold dial_success at hfail
              have hcd : decide (connect_to_server (env i) ≠ -1) = true := by
                simpa using hc2
              simpa [hcd] using hfail
            rw [if_pos ht]
        rw [hstep]
        obtain ⟨r1, r2, r3, r4⟩ := init_loop_spec env thread_ok p l' (q.set i none) cnt hnd'
          (fun j hj => by
            rw [liveAt_set_ne (fun hij => hni (by rw [hij]; exact hj)) none]
            exact hsame j (List.mem_cons_of_mem i hj))
        refine ⟨by rw [r1, List.length_set], ?_, ?_, ?_⟩
        · intro j hj
          rcases List.mem_cons.mp hj with hj' | hj'
          · subst hj'
            rw [r3 j hni, liveAt_set_self hlen none, hfail]
            rfl
          · exact r2 j hj'
        · intro j hj
          have hij : i ≠ j := fun h => hj (h ▸ List.mem_cons_self i l')
          rw [r3 j (fun hmem => hj (List.mem_cons_of_mem i hmem)),
            liveAt_set_ne hij none]
        · rw [r4, List.countP_cons]
          have hfalse : ((liveAt p i).isSome && dial_success env thread_ok i) = false := by
            rw [hfail, Bool.and_false]
          rw [hfalse]
          simp
      · have hsucc : dial_success env thread_ok i = true := by
          cases h : dial_success env thread_ok i
          · exact absurd h hfail
          · rfl
        have hstep : init_servers_step env thread_ok (q, cnt) i = (q, cnt + 1) := by
          unfold init_servers_step
          rw [hq]
          dsimp only
          unfold dial_success at hsucc
          obtain ⟨hc, ht⟩ := Bool.and_eq_true_iff.mp hsucc
          rw [if_neg (by simpa using hc), if_neg (by simp [ht])]
        rw [hstep]
        obtain ⟨r1, r2, r3, r4⟩ := init_loop_spec env thread_ok p l' q (cnt + 1) hnd'
          (fun j hj => hsame j (List.mem_cons_of_mem i hj))
        refine ⟨r1, ?_, ?_, ?_⟩
        · intro j hj
          rcases List.mem_cons.mp hj with hj' | hj'
          · subst hj'
            rw [r3 j hni, hq, hsucc, ← hpi, hq]
            rfl
          · exact r2 j hj'
        · intro j hj
          exact r3 j (fun hmem => hj (List.mem_cons_of_mem i hmem))
        · rw [r4, List.countP_cons]
          have htrue : ((liveAt p i).isSome && dial_success env thread_ok i) = true := by
            rw [hsucc, ← hpi, hq]
            rfl
          rw [htrue]
          simp
          omega

/-! ## The claims -/

/-- A backend at exactly full load (`num_connections == max_connections == 5`). -/
def S1 : server_t := { init_server 5 with connection_details := ⟨5, 5⟩ }

/-- A pool whose only live backend is at full load. -/
def P1 : Pool := single_pool 0 S1

/-- A pool with no live backend. -/
def EMPTY_POOL : Pool := List.replicate MAX_SERVERS none

/-- C1: on a pool whose every live backend is at load `≥ 1` (here: one
backend with `num_connections == max_connections == 5`), and likewise on
a pool with no live backend, the selection loop of `assign_client` ends
with `server == NULL` and the call reaches the crash branch (modelled
`none`): the C code dereferences the null `server` pointer
(loadbalancer.c:320/326) instead of rejecting the client and leaving
every backend's `num_connections` unchanged, as the claim requires. -/
theorem c1_null_deref_on_full_pool :
    assign_client P1 ⟨9, 99⟩ = none ∧ assign_client EMPTY_POOL ⟨9, 99⟩ = none := by
  decide

/-- C2: whenever some live backend of the (`MAX_SERVERS`-slot) pool has
load strictly below `1` (and live backends have positive configured
capacity, as the source always configures), `assign_client` selects a
live backend of minimal load fraction and inserts the client there; any
live backend sharing that minimal fraction has an index `≥` the selected
one (so the lowest-indexed minimum is selected). -/
theorem c2_assign_selects_least_loaded (p : Pool) (c : client_t)
    (hlen : p.length = MAX_SERVERS)
    (hpos : ∀ k u, liveAt p k = some u → 0 < u.connection_details.max_connections)
    (i : Nat) (s : server_t) (hi : liveAt p i = some s) (hs : loadOf s < 1) :
    ∃ j t, (scan p).2 = some j ∧ liveAt p j = some t ∧
      assign_client p c = some (p.set j (some (insert_client t c))) ∧
      (∀ k u, liveAt p k = some u → loadOf t ≤ loadOf u) ∧
      (∀ k u, liveAt p k = some u → loadOf u = loadOf t → j ≤ k) := by
  cases hscan : (scan p).2 with
  | none =>
    exact absurd hs (not_lt.mpr (scan_none_spec hpos hlen hscan i s hi))
  | some j =>
    obtain ⟨t, hlive, hlt, hmin, hstrict⟩ := scan_some_spec hpos hlen hscan
    refine ⟨j, t, rfl, hlive, ?_, hmin, ?_⟩
    · unfold assign_client
      rw [hscan]
      dsimp only
      rw [hlive]
    · intro k u hk hequ
      by_cases hkj : k < j
      · exact absurd (hstrict k u hk hkj) (by rw [hequ]; exact lt_irrefl _)
      · omega

/-- The higher-loaded backend of the C2 witness pool. -/
def S2a : server_t := { init_server 2 with connection_details := ⟨1, 2⟩ }

/-- The empty backend of the C2 witness pool. -/
def S2b : server_t := init_server 2

/-- A pool with two live backends at loads `1/2` and `0`. -/
def P2 : Pool := [some S2a, some S2b, none, none, none, none, none, none, none, none]

theorem P2_hpos : ∀ k u, liveAt P2 k = some u →
    0 < u.connection_details.max_connections := by
  intro k u hk
  have hmem := List.getElem?_mem (Option.join_eq_some.mp hk)
  simp only [P2, List.mem_cons] at hmem
  rcases hmem with h | h | h
  · injection h with h
    subst h
    decide
  · injection h with h
    subst h
    decide
  · simp at h

/-- Witness for C2 at the concrete pool `P2`: the scan selects slot 1
(the empty backend). -/
theorem c2_witness :
    P2.length = MAX_SERVERS ∧ liveAt P2 1 = some S2b ∧ loadOf S2b < 1 ∧
    ∃ j t, (scan P2).2 = some j ∧ liveAt P2 j = some t ∧
      assign_client P2 ⟨5, 50⟩ = some (P2.set j (some (insert_client t ⟨5, 50⟩))) ∧
      (∀ k u, liveAt P2 k = some u → loadOf t ≤ loadOf u) ∧
      (∀ k u, liveAt P2 k = some u → loadOf u = loadOf t → j ≤ k) :=
  ⟨rfl, by decide, by norm_num [loadOf, S2b, init_server],
    c2_assign_selects_least_loaded P2 ⟨5, 50⟩ rfl P2_hpos 1 S2b (by decide)
      (by norm_num [loadOf, S2b, init_server])⟩

/-- C3: every step of the dispatch core — an `assign_client` insertion
or a worker ready-fd pass (which decrements `num_connections` once per
client read returning `0`) — keeps `0 ≤ num_connections ≤
max_connections` for every live backend of a well-formed pool. -/
theorem c3_connection_bounds_preserved (p p' : Pool) (hwf : WF p)
    (hstep : Step p p') :
    ∀ i s, liveAt p' i = some s →
      0 ≤ s.connection_details.num_connections ∧
      s.connection_details.num_connections ≤
        s.connection_details.max_connections := by
  intro i s h
  have hwf' := WF_preserved hwf hstep
  exact ⟨(hwf' i s h).2.1, (hwf' i s h).2.2.1⟩

/-- The fresh backend of the C3 witness. -/
def S3 : server_t := init_server 2

/-- The C3 witness pool. -/
def P3 : Pool := single_pool 0 S3

/-- The C3 witness client. -/
def Cl3 : client_t := ⟨0, 40⟩

/-- Witness for C3: one concrete `assign_client` step on `P3`. -/
theorem c3_witness :
    WF P3 ∧
    (0 ≤ (insert_client S3 Cl3).connection_details.num_connections ∧
      (insert_client S3 Cl3).connection_details.num_connections ≤
        (insert_client S3 Cl3).connection_details.max_connections) := by
  have hwf : WF P3 := WF_single (by decide)
  have hass : assign_client P3 Cl3 = some (single_pool 0 (insert_client S3 Cl3)) := by
    decide
  exact ⟨hwf, c3_connection_bounds_preserved P3 _ hwf (Step.assign Cl3 hass) 0
    (insert_client S3 Cl3) (by decide)⟩

/-- A backend with one assigned client, for the C4 theorem. -/
def S4 : server_t := insert_client (init_server 2) ⟨7, 77⟩

/-- C4: the worker's ready test is `fds[i].revents && POLLIN`
(loadbalancer.c:197) — a logical, not bitwise, conjunction, which is true
for every nonzero `revents`.  With `revents = POLLERR` (8), whose
`POLLIN` bit is clear, the test still fires and the read path runs: with
the recv oracle returning `0` the pass decrements `num_connections`,
which the claim ("read iff `POLLIN` is set") forbids. -/
theorem c4_read_despite_no_pollin :
    pollin_check POLLERR = true ∧ POLLERR.land POLLIN = 0 ∧
    (routine_pass S4 (fun _ => POLLERR)
      (fun _ => 0)).connection_details.num_connections = 0 := by
  decide

/-- C5: dispatching the clients `cs` in order to a pool whose single
live backend is freshly constructed with capacity `C ≥ |cs|` succeeds,
leaves `num_connections = |cs|`, stores client `i` of the sequence at
slot `i` of `assigned_clients`, and registers its socket at slot `i` of
`client_pollin_fds` with `events = POLLIN`. -/
theorem c5_sequential_dispatch (j : Nat) (hj : j < MAX_SERVERS) (C : Int)
    (hC : 0 < C) (cs : List client_t) (hN : (cs.length : Int) ≤ C) :
    ∃ s', dispatchAll (single_pool j (init_server C)) cs = some (single_pool j s') ∧
      s'.connection_details.num_connections = cs.length ∧
      (∀ (i : Nat) (c : client_t), cs[i]? = some c →
        s'.server_pollin.assigned_clients[i]? = some (some c) ∧
        ∃ e : pollfd, s'.server_pollin.client_pollin_fds[i]? = some e ∧
          e.fd = c.sockfd ∧ e.events = POLLIN) := by
  have hdisp := dispatch_single cs hj (init_server C) hC
    (by
      show (0 : Int) + cs.length ≤ C
      omega)
  obtain ⟨r1, _, r3⟩ := foldl_insert_spec cs (init_server C)
    (le_refl 0)
    (by
      show (0 : Int) + cs.length ≤ C
      omega)
    (by simp [init_server])
    (by simp [init_server])
  refine ⟨cs.foldl insert_client (init_server C), hdisp, ?_, ?_⟩
  · rw [r1]
    show (0 : Int) + cs.length = cs.length
    omega
  · intro i c hc
    have := r3 i c hc
    rwa [show (init_server C).connection_details.num_connections.toNat + i = i from
      by simp [init_server]] at this

/-- Witness for C5: two clients dispatched to one fresh backend of
capacity 2. -/
theorem c5_witness :
    0 < MAX_SERVERS ∧ (0 : Int) < 2 ∧
    (([⟨0, 100⟩, ⟨1, 101⟩] : List client_t).length : Int) ≤ 2 ∧
    ∃ s', dispatchAll (single_pool 0 (init_server 2)) [⟨0, 100⟩, ⟨1, 101⟩] =
        some (single_pool 0 s') ∧
      s'.connection_details.num_connections =
        ([⟨0, 100⟩, ⟨1, 101⟩] : List client_t).length ∧
      (∀ (i : Nat) (c : client_t), ([⟨0, 100⟩, ⟨1, 101⟩] : List client_t)[i]? = some c →
        s'.server_pollin.assigned_clients[i]? = some (some c) ∧
        ∃ e : pollfd, s'.server_pollin.client_pollin_fds[i]? = some e ∧
          e.fd = c.sockfd ∧ e.events = POLLIN) :=
  ⟨by decide, by decide, by decide,
    c5_sequential_dispatch 0 (by decide) 2 (by decide) [⟨0, 100⟩, ⟨1, 101⟩] (by decide)⟩

/-- C6: every step of the dispatch core — an `assign_client` insertion
or a worker ready-fd pass (the worker's disconnect handling decrements
`num_connections` and leaves both arrays in place) — preserves the
parallel-array correspondence `client_pollin_fds[k].fd ==
assigned_clients[k]->sockfd` on every occupied slot `k <
num_connections` of every live backend of a well-formed pool. -/
theorem c6_parallel_arrays_preserved (p p' : Pool) (hwf : WF p)
    (hstep : Step p p') :
    ∀ i s, liveAt p' i = some s →
      ∀ k, k < s.connection_details.num_connections.toNat →
        parallel_at s k = true := by
  intro i s h k hk
  exact ((WF_preserved hwf hstep) i s h).2.2.2.2.2 k hk

/-- The backend of the C6 witness (one assigned client). -/
def S6 : server_t := insert_client (init_server 2) ⟨7, 77⟩

/-- The C6 witness pool. -/
def P6 : Pool := single_pool 0 S6

/-- Witness for C6: one concrete worker pass (readable client, recv
returns 5 bytes) on `P6`. -/
theorem c6_witness :
    WF P6 ∧ parallel_at (routine_pass S6 (fun _ => POLLIN) (fun _ => 5)) 0 = true := by
  have hwf : WF P6 := WF_single (by decide)
  refine ⟨hwf, ?_⟩
  have hstep : Step P6 (P6.set 0 (some (routine_pass S6 (fun _ => POLLIN) (fun _ => 5)))) :=
    Step.worker 0 S6 (fun _ => POLLIN) (fun _ => 5) (by decide) (by decide)
  exact c6_parallel_arrays_preserved P6 _ hwf hstep 0 _ (by decide) 0 (by decide)

/-- Counterexample to C7 as stated: both fatal bootstrap failures —
`init_servers() == 0` and listener fd `-1` — terminate the process, but
through `cleanup_and_exit`, which is `return 0`
(loadbalancer.c:382-384): the exit status is `0`, not nonzero. -/
theorem c7_counterexample :
    ¬ exits_nonzero (main_bootstrap 0 3) ∧ ¬ exits_nonzero (main_bootstrap 5 (-1)) := by
  constructor
  · rintro ⟨code, hne, heq⟩
    have h0 : main_bootstrap 0 3 = main_outcome.exited 0 := by decide
    rw [h0] at heq
    injection heq with h
    exact hne h.symm
  · rintro ⟨code, hne, heq⟩
    have h0 : main_bootstrap 5 (-1) = main_outcome.exited 0 := by decide
    rw [h0] at heq
    injection heq with h
    exact hne h.symm

/-- C7 (amended): the process terminates — with exit status `0` —
whenever bootstrap fails fatally (all dials fail, so `init_servers`
returns `0`, or the listener cannot be created, so `init_inbound_socket`
returns `-1`); otherwise it proceeds to accept clients. -/
theorem c7_amended_exit_behaviour (n sock : Int) :
    ((n = 0 ∨ sock = -1) → main_bootstrap n sock = main_outcome.exited 0) ∧
    (n ≠ 0 ∧ sock ≠ -1 → main_bootstrap n sock = main_outcome.accepting) := by
  unfold main_bootstrap
  constructor
  · rintro (h | h)
    · rw [if_pos h]
    · by_cases hn : n = 0
      · rw [if_pos hn]
      · rw [if_neg hn, if_pos h]
  · rintro ⟨hn, hs⟩
    rw [if_neg hn, if_neg hs]

/-- Witness for the amended C7. -/
theorem c7_witness :
    main_bootstrap 0 3 = main_outcome.exited 0 ∧
    main_bootstrap 4 7 = main_outcome.accepting :=
  ⟨(c7_amended_exit_behaviour 0 3).1 (Or.inl rfl),
   (c7_amended_exit_behaviour 4 7).2 ⟨by decide, by decide⟩⟩

/-- C8: during the connect fan-out, every live roster slot whose dial
fails at any step — `socket` returning `-1` (in which case `connect` on
the invalid descriptor fails with `EBADF`, the hypothesis `hebadf`; the
source stores the `socket` result unchecked), `inet_pton` not returning
a positive value, or `connect` returning `-1` — is deallocated and
cleared to `NULL`, and the loop's return value `num_connected` equals
the number of slots that remain live afterwards. -/
theorem c8_dial_failures_pruned_and_counted (p : Pool)
    (hlen : p.length = MAX_SERVERS)
    (env : Nat → dial_env) (thread_ok : Nat → Bool)
    (hebadf : ∀ i, (env i).socket_ret = -1 → (env i).connect_ret = -1) :
    (∀ i s, liveAt p i = some s →
      ((env i).socket_ret = -1 ∨ (env i).pton_ret ≤ 0 ∨ (env i).connect_ret = -1) →
      liveAt (init_servers_loop p env thread_ok).1 i = none) ∧
    (init_servers_loop p env thread_ok).2 =
      countLive (init_servers_loop p env thread_ok).1 := by
  obtain ⟨r1, r2, r3, r4⟩ := init_loop_spec env thread_ok p
    (List.range MAX_SERVERS) p 0 (List.nodup_range _) (fun _ _ => rfl)
  constructor
  · intro i s hi hfail
    have hmem : i ∈ List.range MAX_SERVERS :=
      List.mem_range.mpr (hlen ▸ liveAt_lt_length hi)
    have hfails : connect_to_server (env i) = -1 := by
      unfold connect_to_server
      rcases hfail with h | h | h
      · have hcr := hebadf i h
        by_cases hp2 : (env i).pton_ret ≤ 0
        · rw [if_pos hp2]
        · rw [if_neg hp2, if_pos hcr]
      · rw [if_pos h]
      · by_cases hp2 : (env i).pton_ret ≤ 0
        · rw [if_pos hp2]
        · rw [if_neg hp2, if_pos h]
    have hds : dial_success env thread_ok i = false := by
      unfold dial_success
      rw [hfails]
      simp
    have h2 := r2 i hmem
    rw [hds] at h2
    simpa using h2
  · show (init_servers_loop p env thread_ok).2 = countLive _
    unfold init_servers_loop
    rw [r4, Nat.zero_add]
    unfold countLive
    apply List.countP_congr
    intro a ha
    have h2 := r2 a ha
    cases hda : dial_success env thread_ok a with
    | false =>
      rw [hda] at h2
      simp at h2
      rw [h2]
      simp
    | true =>
      rw [hda] at h2
      simp at h2
      rw [h2]
      simp

/-- The dial oracle of the C8 witness: slot 0's `socket` call fails (so
its `connect` fails with `EBADF`), every other dial succeeds. -/
def ENV8 : Nat → dial_env
  | 0 => ⟨-1, 1, -1⟩
  | 1 => ⟨3, 1, 0⟩
  | _ => ⟨4, 1, 0⟩

/-- The thread-creation oracle of the C8 witness: always succeeds. -/
def TOK8 : Nat → Bool := fun _ => true

/-- The C8 witness pool: two live roster slots. -/
def P8 : Pool := [some (init_server 2), some (init_server 2),
  none, none, none, none, none, none, none, none]

/-- Witness for C8: slot 0 (failed `socket`) is cleared and the count
matches the live slots left. -/
theorem c8_witness :
    P8.length = MAX_SERVERS ∧
    liveAt (init_servers_loop P8 ENV8 TOK8).1 0 = none ∧
    (init_servers_loop P8 ENV8 TOK8).2 =
      countLive (init_servers_loop P8 ENV8 TOK8).1 := by
  have hebadf : ∀ i, (ENV8 i).socket_ret = -1 → (ENV8 i).connect_ret = -1 := by
    intro i h
    match i with
    | 0 => rfl
    | 1 =>
      have h3 : (ENV8 1).socket_ret = 3 := rfl
      omega
    | (n + 2) =>
      have h4 : (ENV8 (n + 2)).socket_ret = 4 := rfl
      omega
  have hmain := c8_dial_failures_pruned_and_counted P8 rfl ENV8 TOK8 hebadf
  exact ⟨rfl, hmain.1 0 (init_server 2) (by decide) (Or.inl (by decide)), hmain.2⟩

/-- Counterexample to C9 as stated: `recv` may return `-1` (on error),
which is inside the claimed range `-1 .. 1023`, yet the store
`buf[count] = '\0'` (loadbalancer.c:202) then indexes at `-1`, outside
`buf[0 .. 1023]`. -/
theorem c9_counterexample :
    (-1 : Int) ≥ -1 ∧ (-1 : Int) ≤ 1023 ∧ ¬ buf_store_in_bounds (-1) := by
  decide

/-- C9 (amended): for every return value of the client read in
`0 .. 1023` — i.e. whenever `recv` does not fail — the null-terminator
store `buf[count]` indexes within the 1024-byte buffer.  (The read is
capped at 1023 bytes, so `count ≤ 1023` indeed holds on success.) -/
theorem c9_amended_bounds (count : Int) (h0 : 0 ≤ count) (h1 : count ≤ 1023) :
    buf_store_in_bounds count := by
  unfold buf_store_in_bounds RECV_BUF_SIZE
  omega

/-- Witness for the amended C9 at the maximal read size. -/
theorem c9_witness :
    (0 : Int) ≤ 1023 ∧ (1023 : Int) ≤ 1023 ∧ buf_store_in_bounds 1023 :=
  ⟨by decide, by decide, c9_amended_bounds 1023 (by decide) (by decide)⟩

/-- C10: (i) once the loader's `count` has reached `MAX_SERVERS`, any
further lines of the file are ignored — loading the extended file is
loading the prefix; (ii) the slot count never exceeds `MAX_SERVERS`, so
at most `MAX_SERVERS` pool slots are ever populated; (iii) the
well-formed roster line `"S 1.2.3.4 42"` produces exactly the identity
fields `name = "S"`, `address = "1.2.3.4"`, `port = 42` in slot 0. -/
theorem c10_roster_loading (l1 l2 : List (List Char))
    (pool0 : List (Option scan_result))
    (hfull : (load_servers_metadata l1 0 pool0).1 = MAX_SERVERS) :
    load_servers_metadata (l1 ++ l2) 0 pool0 = load_servers_metadata l1 0 pool0 ∧
    (∀ l : List (List Char), (load_servers_metadata l 0 pool0).1 ≤ MAX_SERVERS) ∧
    load_servers_metadata ["S 1.2.3.4 42".data] 0 (List.replicate MAX_SERVERS none) =
      (1, (List.replicate MAX_SERVERS (none : Option scan_result)).set 0
        (some (.full "S".data "1.2.3.4".data 42))) := by
  refine ⟨?_, ?_, by decide⟩
  · rw [load_append, hfull, load_stop l2 MAX_SERVERS _ (le_refl _), Prod.ext_iff]
    exact ⟨hfull.symm, rfl⟩
  · intro l
    exact load_le l 0 pool0 (by omega)

/-- A roster with exactly `MAX_SERVERS` well-formed lines. -/
def L10 : List (List Char) := List.replicate MAX_SERVERS ("A 1.1.1.1 1".data)

/-- Witness for C10: an eleventh line beyond the ten of `L10` is
ignored. -/
theorem c10_witness :
    (load_servers_metadata L10 0 (List.replicate MAX_SERVERS none)).1 = MAX_SERVERS ∧
    load_servers_metadata (L10 ++ ["B 2.2.2.2 2".data]) 0
        (List.replicate MAX_SERVERS none) =
      load_servers_metadata L10 0 (List.replicate MAX_SERVERS none) := by
  have h : (load_servers_metadata L10 0 (List.replicate MAX_SERVERS none)).1 =
      MAX_SERVERS := by decide
  exact ⟨h, (c10_roster_loading L10 ["B 2.2.2.2 2".data]
    (List.replicate MAX_SERVERS none) h).1⟩
